import Mathlib

/-!
Verification of the hierr error-rendering library (package `hierr`,
repository `reconquest/hierr-go`).

The development embeds, as executable Lean definitions, the data model and
the rendering algorithm of the library:

* `Error` embeds the Go struct `Error{Message string; Reason Reason;
  Context *ErrorContext}`.
* `RVal` embeds the possible runtime shapes of the `Reason interface{}`
  field as inspected by the `switch` in `Error.Error()`: `nil`, a single
  value, or a `[]Reason` slice.  (A `[]Reason`-typed nil slice, as produced
  by `Push` with no children, behaves exactly like an empty slice in every
  operation of the package, and is embedded as `rmany []`.)
* `Reason` embeds a renderable value: a plain string (also covering foreign
  error values, which the renderer only ever consults through their string
  form) or a nested `Error`.
* `ErrorContext` embeds the linked list struct `ErrorContext{Key, Value,
  Previous *ErrorContext}`; a `*ErrorContext` pointer is an
  `Option ErrorContext`, and context values are taken to be strings (the
  code formats them with the `%s` verb).
* `errorString` embeds the method `Error.Error()`, `stringOf` the function
  `String`, `formatReasons`/`formatLoop` the function `formatReasons`,
  `Push`, `Errorf`, `Fatalf`, `Context`, `ErrorContext.Context`,
  `ErrorContext.Errorf` and `ErrorContext.Walk` their namesakes.

The mutable package globals `BranchDelimiter`, `BranchChainer`,
`BranchSplitter` and `BranchIndent` are read by the renderer at render
time; they are embedded as an explicit `Config` argument, with `boxConfig`
holding the default (box-drawing) values.
-/

namespace Hierr

/-- Embeds `strings.Repeat(" ", n)`. -/
def spaces (n : Nat) : String := ⟨List.replicate n ' '⟩

/-- Embeds `unicode.IsSpace` on the characters that can occur in the
connector glyphs (the full Go predicate also accepts further Unicode
space code points, none of which occur in any glyph handled here). -/
def goIsSpace (c : Char) : Bool :=
  c = ' ' || c = '\t' || c = '\n' || c = '\x0b' || c = '\x0c' || c = '\r' ||
    c = '\u0085' || c = ' '

/-- Embeds `strings.TrimRightFunc(s, unicode.IsSpace)`. -/
def rstrip (s : String) : String := ⟨(s.data.reverse.dropWhile goIsSpace).reverse⟩

/-- Character-level worker for `reindent`: every newline is followed by the
inserted indentation, and the inserted text is not rescanned (exactly as
`strings.Replace`, which resumes scanning after the replacement). -/
def reindentChars (ind : List Char) : List Char → List Char
  | [] => []
  | c :: rest =>
    if c = '\n' then c :: (ind ++ reindentChars ind rest)
    else c :: reindentChars ind rest

/-- Embeds `strings.Replace(s, "\n", "\n" + ind, -1)`. -/
def reindent (ind : String) (s : String) : String := ⟨reindentChars ind.data s.data⟩

/-- Concatenation of a list of strings (used to state the decomposition of
the rendering loop into per-child blocks). -/
def strConcat : List String → String
  | [] => ""
  | s :: rest => s ++ strConcat rest

/-- Embeds the constant `BranchDelimiterBox`. -/
def BranchDelimiterBox : String := "└─ "

/-- Embeds the constant `BranchChainerBox`. -/
def BranchChainerBox : String := "│ "

/-- Embeds the constant `BranchSplitterBox`. -/
def BranchSplitterBox : String := "├─ "

/-- Embeds the constant `BranchDelimiterASCII`. -/
def BranchDelimiterASCII : String := "\\_ "

/-- Embeds the constant `BranchChainerASCII`. -/
def BranchChainerASCII : String := "| "

/-- Embeds the constant `BranchSplitterASCII`. -/
def BranchSplitterASCII : String := "+ "

/-- The package-level mutable rendering configuration, read at render time:
`BranchDelimiter`, `BranchChainer`, `BranchSplitter`, `BranchIndent`. -/
structure Config where
  delim : String
  chainer : String
  splitter : String
  indent : Nat

/-- The default configuration: box-drawing glyphs and indent 3. -/
def boxConfig : Config := ⟨BranchDelimiterBox, BranchChainerBox, BranchSplitterBox, 3⟩

/-- Embeds the struct `ErrorContext{Key string; Value interface{};
Previous *ErrorContext}`; the `Previous` pointer is an option. -/
inductive ErrorContext where
  | mk (key : String) (value : String) (previous : Option ErrorContext)

/-- Body of the method `(*ErrorContext).Walk(callback)` on a non-nil
receiver, as the list of `(key, value)` pairs passed to the callback in
visit order: the callback receives the receiver's pair and, when
`Previous` is non-nil, the walk recurses into it. -/
def ErrorContext.walkFrom : ErrorContext → List (String × String)
  | ⟨k, v, none⟩ => [(k, v)]
  | ⟨k, v, some prev⟩ => (k, v) :: ErrorContext.walkFrom prev

/-- Embeds the method `(*ErrorContext).Walk(callback)` as the list of
`(key, value)` pairs passed to the callback, in visit order: a nil
receiver is a no-op. -/
def ErrorContext.Walk : Option ErrorContext → List (String × String)
  | none => []
  | some ec => ErrorContext.walkFrom ec

theorem walk_none : ErrorContext.Walk none = [] := rfl

theorem walk_some (k v : String) (prev : Option ErrorContext) :
    ErrorContext.Walk (some ⟨k, v, prev⟩) = (k, v) :: ErrorContext.Walk prev := by
  cases prev <;> rfl

/-- Embeds the package-level constructor `Context(key, value)
*ErrorContext`. -/
def Context (key value : String) : ErrorContext := ⟨key, value, none⟩

/-- Embeds the method `(context ErrorContext) Context(key, value)`:
the receiver is a by-value copy, a new node `{key, value, context.Previous}`
is created, and the copy's `Previous` is set to it.  The new pair is thus
inserted immediately behind the (unchanged) head pair of the chain. -/
def ErrorContext.Context : ErrorContext → String → String → ErrorContext
  | ⟨k0, v0, prev⟩, key, value => ⟨k0, v0, some ⟨key, value, prev⟩⟩

mutual
/-- Embeds the struct `Error{Message string; Reason Reason;
Context *ErrorContext}` (single-constructor inductive, since mutual
blocks do not admit structures). -/
inductive Error where
  | mk (message : String) (reason : RVal) (context : Option ErrorContext)

/-- The runtime shapes of the `Reason interface{}` field distinguished by
the `switch` in `Error.Error()`: `nil`, a `[]Reason` slice, or any other
single value. -/
inductive RVal where
  | rnil
  | rone (r : Reason)
  | rmany (rs : List Reason)

/-- A renderable reason value: a plain string (also standing for foreign
error values, consulted only through their string form) or a nested
`Error`. -/
inductive Reason where
  | str (s : String)
  | err (e : Error)
end

/-- Field accessor for `Error.Message`. -/
def Error.message : Error → String
  | ⟨m, _, _⟩ => m

/-- Field accessor for `Error.Reason`. -/
def Error.reason : Error → RVal
  | ⟨_, v, _⟩ => v

/-- Field accessor for `Error.Context`. -/
def Error.context : Error → Option ErrorContext
  | ⟨_, _, c⟩ => c

mutual
/-- Structural weight of an `Error`, used as the termination measure of the
renderer (constants chosen so that the synthetic context leaves created at
render time are smaller than the context chain that spawns them). -/
def sizeE : Error → Nat
  | ⟨_, v, ctx⟩ => 2 + sizeV v + 6 * (ErrorContext.Walk ctx).length

/-- Structural weight of an `RVal`. -/
def sizeV : RVal → Nat
  | .rnil => 0
  | .rone r => 1 + sizeR r
  | .rmany rs => 1 + sizeL rs

/-- Structural weight of a `Reason`. -/
def sizeR : Reason → Nat
  | .str _ => 1
  | .err e => 2 + sizeE e

/-- Structural weight of a list of `Reason`s. -/
def sizeL : List Reason → Nat
  | [] => 0
  | r :: rest => 1 + sizeR r + sizeL rest
end

/-- The reason list denoted by a `Reason` field value, as computed by
`Error.GetReasons`: `nil` contributes nothing, a slice is returned as is,
any other value is wrapped in a singleton slice. -/
def reasonsList : RVal → List Reason
  | .rnil => []
  | .rone r => [r]
  | .rmany rs => rs

/-- Embeds the method `Error.GetReasons()`. -/
def Error.GetReasons (e : Error) : List Reason := reasonsList e.reason

/-- The synthetic leaf pushed for one context pair at render time:
`Push(fmt.Sprintf("%s: %s", name, value))` yields
`Error{Message: "name: value", Reason: append(nil)}`, i.e. a node with an
empty reason slice and no context. -/
def ctxLeaf (p : String × String) : Reason :=
  .err ⟨p.1 ++ ": " ++ p.2, .rmany [], none⟩

/-- Embeds the prolongation test of `formatReasons`: a sibling triggers
prolongation iff it implements `HierarchicalError` (here: iff it is an
`Error`) and its `GetReasons()` is non-empty.  Plain strings and foreign
values without the interface never trigger it. -/
def hasNested : Reason → Bool
  | .str _ => false
  | .err e => !(Error.GetReasons e).isEmpty

theorem sizeL_append (a b : List Reason) : sizeL (a ++ b) = sizeL a + sizeL b := by
  induction a with
  | nil => simp [sizeL]
  | cons r rest ih => simp [sizeL, ih]; omega

theorem sizeL_reasonsList_le (v : RVal) : sizeL (reasonsList v) ≤ sizeV v := by
  cases v <;> simp [reasonsList, sizeV, sizeL]

theorem sizeR_ctxLeaf (p : String × String) : sizeR (ctxLeaf p) = 5 := by
  simp [ctxLeaf, sizeR, sizeE, sizeV, sizeL, ErrorContext.Walk]

theorem sizeL_map_ctxLeaf (ps : List (String × String)) :
    sizeL (ps.map ctxLeaf) = 6 * ps.length := by
  induction ps with
  | nil => simp [sizeL]
  | cons p rest ih => simp [sizeL, ih, sizeR_ctxLeaf]; omega

/-- Embeds `len([]rune(BranchChainer))`: the rune length of the chainer
glyph (Lean's `String.length` counts unicode scalar values, as Go's
`[]rune` conversion does). -/
def chainerLen (cfg : Config) : Nat := cfg.chainer.length

/-- The per-child connector of the `formatReasons` loop: the splitter for
every child but the last, the delimiter for the last child. -/
def childSplitter (cfg : Config) (isLast : Bool) : String :=
  if isLast then cfg.delim else cfg.splitter

/-- The per-child continuation glyph of the `formatReasons` loop: the
chainer for every child but the last, and `chainerLen` spaces for the last
child. -/
def childChainer (cfg : Config) (isLast : Bool) : String :=
  if isLast then spaces (chainerLen cfg) else cfg.chainer

/-- The per-child indentation of the `formatReasons` loop: the continuation
glyph, right-padded with spaces up to `BranchIndent` total rune width when
`BranchIndent >= chainerLength`. -/
def childIndent (cfg : Config) (isLast : Bool) : String :=
  childChainer cfg isLast ++
    (if chainerLen cfg ≤ cfg.indent then spaces (cfg.indent - chainerLen cfg) else "")

/-- The per-child prolongator of the `formatReasons` loop: when prolongation
is on and the child is not the last, a newline followed by the child's
continuation glyph with trailing whitespace trimmed; otherwise empty. -/
def childProlongator (cfg : Config) (prolongate : Bool) (isLast : Bool) : String :=
  if prolongate && !isLast then "\n" ++ rstrip (childChainer cfg isLast) else ""

mutual
/-- Embeds the function `String(object)`: an `Error` renders through its
`Error()` method (it implements `HierarchicalError`); any other value is
taken by its string form. -/
def stringOf (cfg : Config) : Reason → String
  | .str s => s
  | .err e => errorString cfg e
termination_by r => sizeR r
decreasing_by
  all_goals (simp [sizeR]; try omega)

/-- Embeds the method `Error.Error()`.  The Go method first folds the
context chain into the reason list (`err = Push(err, Push(name + ": " +
value))` for every walked pair, which turns the reason into the slice
`GetReasons(err) ++ leaves` as soon as the chain is non-empty) and then
switches on the folded reason: `nil` yields the message alone, a slice is
rendered by `formatReasons`, and any other single value is rendered as
message, newline, delimiter, and the reindented string form of the value.
The fold and the switch are fused here by case analysis on the context
pointer; `errorString_staged` below proves the fused form equal to the
staged `Walk`/`Push` pipeline. -/
def errorString (cfg : Config) : Error → String
  | ⟨m, .rnil, none⟩ => m
  | ⟨m, .rone r, none⟩ =>
    m ++ "\n" ++ cfg.delim ++ reindent (spaces cfg.indent) (stringOf cfg r)
  | ⟨m, .rmany rs, none⟩ => formatReasons cfg m rs
  | ⟨m, v, some ec⟩ =>
    formatReasons cfg m (reasonsList v ++ (ErrorContext.Walk (some ec)).map ctxLeaf)
termination_by e => sizeE e
decreasing_by
  · simp [sizeE, sizeV, ErrorContext.Walk]; try omega
  · simp [sizeE, sizeV, ErrorContext.Walk]; try omega
  · have h1 := sizeL_append (reasonsList v) ((ErrorContext.Walk (some ec)).map ctxLeaf)
    have h2 := sizeL_reasonsList_le v
    have h3 := sizeL_map_ctxLeaf (ErrorContext.Walk (some ec))
    simp only [sizeE]
    omega

/-- Embeds the function `formatReasons(err, reasons)`: the prolongation
flag is computed once over the whole sibling list, and the loop then
accumulates the message. -/
def formatReasons (cfg : Config) (message : String) (rs : List Reason) : String :=
  formatLoop cfg (rs.any hasNested) message rs
termination_by sizeL rs + 1
decreasing_by
  all_goals omega

/-- Embeds the `for index, reason := range reasons` loop of
`formatReasons`: per child, the connector is appended only when the
accumulated message is non-empty, then the child's reindented string form,
then the prolongator. -/
def formatLoop (cfg : Config) (prolongate : Bool) (message : String) :
    List Reason → String
  | [] => message
  | r :: rest =>
    let isLast := rest.isEmpty
    let m1 := if message = "" then message else message ++ "\n" ++ childSplitter cfg isLast
    let m2 := m1 ++ reindent (childIndent cfg isLast) (stringOf cfg r) ++
      childProlongator cfg prolongate isLast
    formatLoop cfg prolongate m2 rest
termination_by rs => sizeL rs
decreasing_by
  all_goals (simp [sizeL]; try omega)
end

/-- Embeds `Errorf(reason, message, args...)`: the message is taken already
formatted (the `fmt.Sprintf` step is outside the scope of the embedding);
the function unconditionally returns `Error{Message: message, Reason:
reason}` with a nil context. -/
def Errorf (reason : RVal) (message : String) : Error := ⟨message, reason, none⟩

/-- Embeds `Push(reason, reasons...)`: a non-`Error` parent is normalized
to a leaf node whose message is its string form, and the result is a fresh
`Error` carrying the parent's message and `append(parent.GetReasons(),
reasons...)`, with the zero-valued (nil) context. -/
def Push (cfg : Config) (reason : Reason) (reasons : List Reason) : Error :=
  let parent : Error :=
    match reason with
    | .err e => e
    | r => ⟨stringOf cfg r, .rnil, none⟩
  ⟨parent.message, .rmany (Error.GetReasons parent ++ reasons), none⟩

/-- Embeds the method `(context ErrorContext) Errorf(reason, message,
args...)`: returns `Error{Message, Reason, Context: &context}`. -/
def ErrorContext.Errorf (ec : ErrorContext) (reason : RVal) (message : String) : Error :=
  ⟨message, reason, some ec⟩

/-- Observable effects of `Fatalf`, in order: the write of
`fmt.Fprintln(os.Stderr, ...)` and the call of the injectable `exiter`
variable (which defaults to `os.Exit`). -/
inductive Effect where
  | writeStderr (s : String)
  | exitProcess (code : Nat)
deriving DecidableEq

/-- Embeds `Fatalf(reason, message, args...)`: it prints
`Errorf(reason, message, args...)` to standard error with a trailing
newline (the behaviour of `Fprintln`) and then calls `exiter(1)`. -/
def Fatalf (cfg : Config) (reason : RVal) (message : String) : List Effect :=
  [.writeStderr (errorString cfg (Errorf reason message) ++ "\n"), .exitProcess 1]

/-! Unfolding equations of the renderer (the definitions recurse by a
well-founded measure, so the equations are exposed as lemmas). -/

theorem es_rnil (cfg : Config) (m : String) : errorString cfg ⟨m, .rnil, none⟩ = m := by
  simp [errorString]

theorem es_rone (cfg : Config) (m : String) (r : Reason) :
    errorString cfg ⟨m, .rone r, none⟩ =
      m ++ "\n" ++ cfg.delim ++ reindent (spaces cfg.indent) (stringOf cfg r) := by
  simp [errorString]

theorem es_rmany (cfg : Config) (m : String) (rs : List Reason) :
    errorString cfg ⟨m, .rmany rs, none⟩ = formatReasons cfg m rs := by
  simp [errorString]

theorem es_ctx (cfg : Config) (m : String) (v : RVal) (ec : ErrorContext) :
    errorString cfg ⟨m, v, some ec⟩ =
      formatReasons cfg m (reasonsList v ++ (ErrorContext.Walk (some ec)).map ctxLeaf) := by
  cases v <;> simp [errorString]

theorem so_str (cfg : Config) (s : String) : stringOf cfg (.str s) = s := by
  simp [stringOf]

theorem so_err (cfg : Config) (e : Error) : stringOf cfg (.err e) = errorString cfg e := by
  simp [stringOf]

theorem fr_def (cfg : Config) (m : String) (rs : List Reason) :
    formatReasons cfg m rs = formatLoop cfg (rs.any hasNested) m rs := by
  simp [formatReasons]

theorem fl_nil (cfg : Config) (p : Bool) (m : String) : formatLoop cfg p m [] = m := by
  simp [formatLoop]

theorem fl_cons (cfg : Config) (p : Bool) (m : String) (r : Reason) (rest : List Reason) :
    formatLoop cfg p m (r :: rest) =
      formatLoop cfg p
        ((if m = "" then m else m ++ "\n" ++ childSplitter cfg rest.isEmpty) ++
          reindent (childIndent cfg rest.isEmpty) (stringOf cfg r) ++
          childProlongator cfg p rest.isEmpty)
        rest := by
  rw [formatLoop]

/-! Elementary string facts used by the decomposition of the loop. -/

theorem append_ne_empty_left (a b : String) (h : a ≠ "") : a ++ b ≠ "" := by
  intro hc
  apply h
  have hl := congrArg String.length hc
  simp only [String.length_append] at hl
  have : a.length = 0 := by
    have : ("" : String).length = 0 := rfl
    omega
  cases a with
  | mk d => cases d with
    | nil => rfl
    | cons c cs => simp [String.length] at this

/-! Decomposition of the rendering loop into one block per child. -/

/-- Connector-plus-body part of one child's block in the output of
`formatReasons`: a newline, the child's connector, and the child's string
form with every embedded newline followed by the child's indentation. -/
def childBlockCore (cfg : Config) (isLast : Bool) (r : Reason) : String :=
  "\n" ++ childSplitter cfg isLast ++ reindent (childIndent cfg isLast) (stringOf cfg r)

/-- Tags every element of a list with a flag telling whether it is the last
element. -/
def withLast {α : Type} : List α → List (α × Bool)
  | [] => []
  | a :: rest => (a, rest.isEmpty) :: withLast rest

/-- The per-child output blocks of `formatReasons`, in order. -/
def blocks (cfg : Config) (prolongate : Bool) (rs : List Reason) : List String :=
  (withLast rs).map fun pr => childBlockCore cfg pr.2 pr.1 ++ childProlongator cfg prolongate pr.2

theorem blocks_nil (cfg : Config) (p : Bool) : blocks cfg p [] = [] := by
  simp [blocks, withLast]

theorem blocks_cons (cfg : Config) (p : Bool) (r : Reason) (rest : List Reason) :
    blocks cfg p (r :: rest) =
      (childBlockCore cfg rest.isEmpty r ++ childProlongator cfg p rest.isEmpty) ::
        blocks cfg p rest := by
  simp [blocks, withLast]

/-- As soon as the accumulated message is non-empty, the `formatReasons`
loop appends exactly one block per remaining child, in order. -/
theorem formatLoop_eq_blocks (cfg : Config) (p : Bool) (rs : List Reason) :
    ∀ m : String, m ≠ "" → formatLoop cfg p m rs = m ++ strConcat (blocks cfg p rs) := by
  induction rs with
  | nil =>
    intro m hm
    simp [fl_nil, blocks_nil, strConcat, String.append_empty]
  | cons r rest ih =>
    intro m hm
    rw [fl_cons, if_neg hm]
    have hne : m ++ "\n" ++ childSplitter cfg rest.isEmpty ++
        reindent (childIndent cfg rest.isEmpty) (stringOf cfg r) ++
        childProlongator cfg p rest.isEmpty ≠ "" := by
      apply append_ne_empty_left
      apply append_ne_empty_left
      apply append_ne_empty_left
      exact append_ne_empty_left m "\n" hm
    rw [ih _ hne, blocks_cons]
    simp [strConcat, childBlockCore, String.append_assoc]

theorem withLast_length {α : Type} (l : List α) : (withLast l).length = l.length := by
  induction l with
  | nil => rfl
  | cons a rest ih => simp [withLast, ih]

theorem blocks_length (cfg : Config) (p : Bool) (rs : List Reason) :
    (blocks cfg p rs).length = rs.length := by
  simp [blocks, withLast_length]

theorem withLast_flags {α : Type} (l : List α) (h : l ≠ []) :
    (withLast l).map (fun pr => pr.2) = List.replicate (l.length - 1) false ++ [true] := by
  induction l with
  | nil => exact absurd rfl h
  | cons a rest ih =>
    cases rest with
    | nil => simp [withLast]
    | cons b bs =>
      have hr : (b :: bs) ≠ ([] : List α) := by simp
      calc (withLast (a :: b :: bs)).map (fun pr => pr.2)
          = false :: (withLast (b :: bs)).map (fun pr => pr.2) := by
            rw [withLast]; simp
        _ = false :: (List.replicate ((b :: bs).length - 1) false ++ [true]) := by
            rw [ih hr]
        _ = List.replicate ((a :: b :: bs).length - 1) false ++ [true] := by
            simp [List.replicate_succ]

/-! Validation of the fused `errorString` against the staged Go pipeline
(`Walk` the context, `Push` one synthetic leaf per pair, then switch on the
folded reason). -/

/-- One iteration of the context-folding callback in `Error.Error()`:
`err = Push(err, Push(fmt.Sprintf("%s: %s", name, value))).(Error)`. -/
def ctxFoldStep (cfg : Config) (acc : Error) (p : String × String) : Error :=
  Push cfg (.err acc) [.err (Push cfg (.str (p.1 ++ ": " ++ p.2)) [])]

/-- The context fold of `Error.Error()`: the callback is applied once per
walked pair, threading the error value. -/
def foldWalk (cfg : Config) (e : Error) : Error :=
  (ErrorContext.Walk e.context).foldl (ctxFoldStep cfg) e

theorem ctxFoldStep_eq (cfg : Config) (m : String) (v : RVal)
    (c : Option ErrorContext) (p : String × String) :
    ctxFoldStep cfg ⟨m, v, c⟩ p = ⟨m, .rmany (reasonsList v ++ [ctxLeaf p]), none⟩ := by
  simp [ctxFoldStep, Push, Error.GetReasons, Error.reason, Error.message, reasonsList, ctxLeaf,
    so_str]

theorem foldl_ctxFoldStep (cfg : Config) (ps : List (String × String)) :
    ∀ (m : String) (l : List Reason),
      ps.foldl (ctxFoldStep cfg) ⟨m, .rmany l, none⟩ =
        ⟨m, .rmany (l ++ ps.map ctxLeaf), none⟩ := by
  induction ps with
  | nil => intro m l; simp
  | cons p rest ih =>
    intro m l
    simp only [List.foldl_cons, ctxFoldStep_eq, reasonsList]
    rw [ih]
    simp

theorem foldWalk_none (cfg : Config) (m : String) (v : RVal) :
    foldWalk cfg ⟨m, v, none⟩ = ⟨m, v, none⟩ := by
  simp [foldWalk, Error.context, ErrorContext.Walk]

theorem foldWalk_some (cfg : Config) (m : String) (v : RVal) (ec : ErrorContext) :
    foldWalk cfg ⟨m, v, some ec⟩ =
      ⟨m, .rmany (reasonsList v ++ (ErrorContext.Walk (some ec)).map ctxLeaf), none⟩ := by
  cases ec with
  | mk k val prev =>
    simp only [foldWalk, Error.context, walk_some, List.foldl_cons,
      ctxFoldStep_eq, List.map_cons]
    rw [foldl_ctxFoldStep]
    simp

/-- The fused `errorString` computes exactly what the staged method body
does: fold the context chain into the reason via `Walk` and `Push`, then
switch on the folded reason (`nil`, slice, or single value). -/
theorem errorString_staged (cfg : Config) (e : Error) :
    errorString cfg e =
      (match foldWalk cfg e with
       | ⟨m, .rnil, _⟩ => m
       | ⟨m, .rone r, _⟩ =>
         m ++ "\n" ++ cfg.delim ++ reindent (spaces cfg.indent) (stringOf cfg r)
       | ⟨m, .rmany rs, _⟩ => formatReasons cfg m rs) := by
  cases e with
  | mk m v ctx =>
    cases ctx with
    | none =>
      rw [foldWalk_none]
      cases v with
      | rnil => rw [es_rnil]
      | rone r => rw [es_rone]
      | rmany rs => rw [es_rmany]
    | some ec =>
      rw [foldWalk_some, es_ctx]

/-! Validation of the embedding against the expected outputs recorded in
the repository's own tests (`hierr_test.go`). -/

example :
    errorString boxConfig ⟨"everything has a reason", .rone (.str "reason"), none⟩ =
      "everything has a reason\n└─ reason" := by
  simp only [es_rone, so_str]
  decide

example :
    errorString boxConfig
      ⟨"karma", .rone (.err ⟨"cause", .rone (.str "reason"), none⟩), none⟩ =
      "karma\n└─ cause\n   └─ reason" := by
  simp only [es_rone, so_str, so_err]
  decide

example :
    errorString ⟨BranchDelimiterBox, BranchChainerBox, BranchSplitterBox, 0⟩
      ⟨"third", .rone (.err ⟨"second", .rone (.str "first"), none⟩), none⟩ =
      "third\n└─ second\n└─ first" := by
  simp only [es_rone, so_str, so_err]
  decide

example :
    errorString boxConfig
      (ErrorContext.Errorf ((Context "host" "example.com").Context "operation" "resolv")
        (.rone (.str "system error")) "unable to resolve") =
      "unable to resolve\n├─ system error\n├─ host: example.com\n└─ operation: resolv" := by
  simp only [ErrorContext.Errorf, Context, ErrorContext.Context, es_ctx, ErrorContext.Walk, ErrorContext.walkFrom,
    ctxLeaf, reasonsList, formatReasons, formatLoop, hasNested, Error.GetReasons,
    Error.reason, so_err, so_str, es_rmany, List.map_cons, List.map_nil, List.append_nil,
    List.nil_append, List.cons_append, List.any_cons, List.any_nil, List.isEmpty_cons,
    List.isEmpty_nil]
  decide

example :
    errorString boxConfig
      (ErrorContext.Errorf (Context "host" "example.com")
        (.rone (.err ⟨"", .rone (.str "system error"), some (Context "os" "linux")⟩))
        "unable to resolve") =
      "unable to resolve\n├─ system error\n│  └─ os: linux\n│\n└─ host: example.com" := by
  simp only [ErrorContext.Errorf, Context, ErrorContext.Context, es_ctx, ErrorContext.Walk, ErrorContext.walkFrom,
    ctxLeaf, reasonsList, formatReasons, formatLoop, hasNested, Error.GetReasons,
    Error.reason, so_err, so_str, es_rmany, es_rone, es_rnil, List.map_cons, List.map_nil,
    List.append_nil, List.nil_append, List.cons_append, List.any_cons, List.any_nil,
    List.isEmpty_cons, List.isEmpty_nil]
  decide

example :
    errorString boxConfig
      (Push boxConfig (.str "root")
        [.err (Push boxConfig (.str "son A")
          [.str "A1",
           .err (Push boxConfig (.str "A2")
             [.err (Push boxConfig (.str "X")
               [.err (Push boxConfig (.str "Xa") []),
                .err (Push boxConfig (.str "Xb") [])])])]),
         .err (Push boxConfig (.str "son B")
           [.str "B1", .str "B2", .err (Push boxConfig (.str "orphan") [])]),
         .err (Errorf (.rone (.str "B1")) "son B"),
         .str "police"]) =
      "root\n├─ son A\n│  ├─ A1\n│  │\n│  └─ A2\n│     └─ X\n│        ├─ Xa\n│        └─ Xb\n│\n├─ son B\n│  ├─ B1\n│  ├─ B2\n│  └─ orphan\n│\n├─ son B\n│  └─ B1\n│\n└─ police" := by
  simp only [Push, Errorf, es_ctx, ErrorContext.Walk, ErrorContext.walkFrom, ctxLeaf, reasonsList, formatReasons,
    formatLoop, hasNested, Error.GetReasons, Error.reason, Error.message, so_err, so_str,
    es_rmany, es_rone, es_rnil, List.map_cons, List.map_nil, List.append_nil,
    List.nil_append, List.cons_append, List.any_cons, List.any_nil, List.isEmpty_cons,
    List.isEmpty_nil]
  decide

/-! Claim theorems. -/

/-- C1: for every node rendered with a Many reason list (and a non-empty
message, so that every child gets its own connector block), if at least one
sibling anywhere in the full children list is an `Error` with non-empty
nested reasons (single or multi), then after every non-last child's block
the rendering appends one extra blank connector line consisting of that
child's chainer glyph with trailing whitespace trimmed; if no sibling has
nested reasons, no such line is appended (the conditional extra line is
exactly the `if`-term of the right-hand side, and the prolongation flag
`rs.any hasNested` is computed once over the whole sibling list). -/
theorem C1_prolongation (cfg : Config) (m : String) (rs : List Reason) (hm : m ≠ "") :
    errorString cfg ⟨m, .rmany rs, none⟩ =
      m ++ strConcat ((withLast rs).map fun pr =>
        childBlockCore cfg pr.2 pr.1 ++
          (if rs.any hasNested && !pr.2 then "\n" ++ rstrip (childChainer cfg pr.2)
           else "")) := by
  rw [es_rmany, fr_def, formatLoop_eq_blocks cfg _ rs m hm]
  simp only [blocks, childProlongator]

/-- Witness for C1 at a concrete input: the parent message is non-empty,
the first sibling has a nested single reason, so the prolongation line is
inserted after it. -/
theorem C1_prolongation_witness :
    (("top" : String) ≠ "") ∧
      errorString boxConfig
        ⟨"top", .rmany [.err ⟨"child", .rone (.str "x"), none⟩, .str "leaf"], none⟩ =
        "top" ++ strConcat
          ((withLast [Reason.err ⟨"child", .rone (.str "x"), none⟩, Reason.str "leaf"]).map
            fun pr =>
              childBlockCore boxConfig pr.2 pr.1 ++
                (if ([Reason.err ⟨"child", .rone (.str "x"), none⟩,
                      Reason.str "leaf"]).any hasNested && !pr.2 then
                  "\n" ++ rstrip (childChainer boxConfig pr.2)
                 else "")) :=
  ⟨by decide,
    C1_prolongation boxConfig "top"
      [.err ⟨"child", .rone (.str "x"), none⟩, .str "leaf"] (by decide)⟩

/-- C2: for every node whose reason is a single nested value (not nil and
not a list) and whose context is absent (a non-empty context turns the
reason into a list before the case switch), the rendering is the message,
a newline, the delimiter glyph, and the child's string rendering in which
every embedded newline is followed by exactly `BranchIndent` spaces. -/
theorem C2_single (cfg : Config) (m : String) (r : Reason) :
    errorString cfg ⟨m, .rone r, none⟩ =
      m ++ "\n" ++ cfg.delim ++ reindent (spaces cfg.indent) (stringOf cfg r) :=
  es_rone cfg m r

/-- C3 (amended): the chain
`Context("host","example.com").Context("operation","resolv")` keeps `host`
as its head pair and inserts `operation` behind it, so
`.Errorf(nil, "system error")` renders `host: example.com` as the second
line (with the splitter) and `operation: resolv` as the third line (with
the delimiter) — host before operation. -/
theorem C3_context_order_amended :
    errorString boxConfig
      (ErrorContext.Errorf ((Context "host" "example.com").Context "operation" "resolv")
        .rnil "system error") =
      "system error\n├─ host: example.com\n└─ operation: resolv" := by
  simp only [ErrorContext.Errorf, Context, ErrorContext.Context, es_ctx, ErrorContext.Walk, ErrorContext.walkFrom,
    ctxLeaf, reasonsList, formatReasons, formatLoop, hasNested, Error.GetReasons,
    Error.reason, so_err, es_rmany, List.map_cons, List.map_nil, List.append_nil,
    List.nil_append, List.cons_append, List.any_cons, List.any_nil, List.isEmpty_cons,
    List.isEmpty_nil]
  decide

/-- C3 (counterexample): the rendering of
`Context("host","example.com").Context("operation","resolv").Errorf(nil,
"system error")` is not the string claimed by the specification (which
puts `operation` on the second line and `host` on the third). -/
theorem C3_context_order_counterexample :
    errorString boxConfig
      (ErrorContext.Errorf ((Context "host" "example.com").Context "operation" "resolv")
        .rnil "system error") ≠
      "system error\n├─ operation: resolv\n└─ host: example.com" := by
  have h : errorString boxConfig
      (ErrorContext.Errorf ((Context "host" "example.com").Context "operation" "resolv")
        .rnil "system error") =
      "system error\n├─ host: example.com\n└─ operation: resolv" := by
    simp only [ErrorContext.Errorf, Context, ErrorContext.Context, es_ctx,
      ErrorContext.Walk, ErrorContext.walkFrom, ctxLeaf, reasonsList, formatReasons,
      formatLoop, hasNested,
      Error.GetReasons, Error.reason, so_err, es_rmany, List.map_cons, List.map_nil,
      List.append_nil, List.nil_append, List.cons_append, List.any_cons, List.any_nil,
      List.isEmpty_cons, List.isEmpty_nil]
    decide
  rw [h]
  decide

/-- C4 (amended): `Walk` visits each pair of the chain exactly once in
chain order — the head pair first, then recursing through `previous` — and
is a no-op on an absent (nil) chain; since the `Context` method inserts the
new pair immediately behind the unchanged head, a chain built by chained
`Context` calls is walked first-added pair first, then the remaining pairs
newest-first. -/
theorem C4_walk_order_amended :
    ErrorContext.Walk none = [] ∧
    (∀ (k v : String) (prev : Option ErrorContext),
      ErrorContext.Walk (some ⟨k, v, prev⟩) = (k, v) :: ErrorContext.Walk prev) ∧
    (∀ (k0 v0 k v : String) (prev : Option ErrorContext),
      ErrorContext.Context ⟨k0, v0, prev⟩ k v = ⟨k0, v0, some ⟨k, v, prev⟩⟩) :=
  ⟨rfl, fun k v prev => walk_some k v prev, fun _ _ _ _ _ => rfl⟩

/-- C4 (counterexample): walking the two-pair chain built by
`Context("host","example.com").Context("operation","resolv")` visits
`host` (the first-added pair) first, not `operation` — so the visit order
is not most-recently-added first. -/
theorem C4_walk_order_counterexample :
    ErrorContext.Walk
        (some ((Context "host" "example.com").Context "operation" "resolv")) =
      [("host", "example.com"), ("operation", "resolv")] ∧
    ErrorContext.Walk
        (some ((Context "host" "example.com").Context "operation" "resolv")) ≠
      [("operation", "resolv"), ("host", "example.com")] := by
  constructor
  · decide
  · decide

/-- C5 (amended): for a Many node with non-empty message and no context,
the rendering is the message followed by one block per child, the block of
child `i` introduced by a newline and its connector — the delimiter for the
last child, the splitter for every other child, so splitter occurrences
times `n - 1` then one delimiter, in order (the second conjunct pins the
last-flags of the children to `n - 1` falses followed by one true).  When
the message is empty the connector of a child is omitted while the
accumulated text is still empty, so the claimed count fails there. -/
theorem C5_connector_structure (cfg : Config) (m : String) (rs : List Reason)
    (hm : m ≠ "") :
    (errorString cfg ⟨m, .rmany rs, none⟩ =
      m ++ strConcat ((withLast rs).map fun pr =>
        "\n" ++ (if pr.2 then cfg.delim else cfg.splitter) ++
          reindent (childIndent cfg pr.2) (stringOf cfg pr.1) ++
          childProlongator cfg (rs.any hasNested) pr.2)) ∧
    (withLast rs).map (fun pr => pr.2) =
      List.replicate (rs.length - 1) false ++ (if rs.isEmpty then [] else [true]) := by
  constructor
  · rw [es_rmany, fr_def, formatLoop_eq_blocks cfg _ rs m hm]
    simp only [blocks, childBlockCore, childSplitter, String.append_assoc]
  · cases rs with
    | nil => simp [withLast]
    | cons r rest =>
      rw [withLast_flags _ (by simp)]
      simp

/-- Witness for C5 at a concrete input: a two-child Many node with
non-empty message. -/
theorem C5_connector_structure_witness :
    (("msg" : String) ≠ "") ∧
      ((errorString boxConfig ⟨"msg", .rmany [.str "a", .str "b"], none⟩ =
        "msg" ++ strConcat ((withLast [Reason.str "a", Reason.str "b"]).map fun pr =>
          "\n" ++ (if pr.2 then boxConfig.delim else boxConfig.splitter) ++
            reindent (childIndent boxConfig pr.2) (stringOf boxConfig pr.1) ++
            childProlongator boxConfig (([Reason.str "a", Reason.str "b"]).any hasNested)
              pr.2)) ∧
      (withLast [Reason.str "a", Reason.str "b"]).map (fun pr => pr.2) =
        List.replicate (([Reason.str "a", Reason.str "b"]).length - 1) false ++
          (if ([Reason.str "a", Reason.str "b"]).isEmpty then [] else [true])) :=
  ⟨by decide,
    C5_connector_structure boxConfig "msg" [.str "a", .str "b"] (by decide)⟩

/-- C5 (counterexample): a Many node of length 1 with an empty message
renders as the bare child text with no connector at all — the delimiter
glyph does not occur in the rendering although the claim requires exactly
one delimiter occurrence before the last child. -/
theorem C5_connector_counterexample :
    errorString boxConfig ⟨"", .rmany [.str "a"], none⟩ = "a" ∧
      ¬ '└' ∈ (errorString boxConfig ⟨"", .rmany [.str "a"], none⟩).data := by
  have h : errorString boxConfig ⟨"", .rmany [.str "a"], none⟩ = "a" := by
    simp only [es_rmany, formatReasons, formatLoop, hasNested, so_str, List.any_cons,
      List.any_nil, List.isEmpty_nil]
    decide
  refine ⟨h, ?_⟩
  rw [h]
  decide

/-- C6: a node with a nil reason and no context renders as its message
alone, for every message including the empty string. -/
theorem C6_nil_reason (cfg : Config) (m : String) :
    errorString cfg ⟨m, .rnil, none⟩ = m :=
  es_rnil cfg m

/-- C7: `Push(parent, children...)` returns a fresh node whose message is
the parent's message (or the parent's string form when the parent is not an
`Error`), and whose reason slice is the parent's `GetReasons()` — nil
contributing zero reasons, a single value contributing one, a slice
contributing its elements — followed by the given children in order; the
parent value itself is a pure input and is never mutated (the embedding is
functional, mirroring the Go code, which only builds a new struct value). -/
theorem C7_push_appends (cfg : Config) (cs : List Reason) :
    (∀ e : Error, Push cfg (.err e) cs =
      ⟨e.message, .rmany (Error.GetReasons e ++ cs), none⟩) ∧
    (∀ s : String, Push cfg (.str s) cs = ⟨s, .rmany cs, none⟩) ∧
    (∀ (m : String) (ctx : Option ErrorContext),
      Error.GetReasons ⟨m, .rnil, ctx⟩ = []) ∧
    (∀ (m : String) (r : Reason) (ctx : Option ErrorContext),
      Error.GetReasons ⟨m, .rone r, ctx⟩ = [r]) ∧
    (∀ (m : String) (rs : List Reason) (ctx : Option ErrorContext),
      Error.GetReasons ⟨m, .rmany rs, ctx⟩ = rs) := by
  refine ⟨fun e => rfl, fun s => ?_, fun m ctx => rfl, fun m r ctx => rfl,
    fun m rs ctx => rfl⟩
  simp only [Push, so_str, Error.GetReasons, Error.reason, reasonsList, Error.message,
    List.nil_append]

/-- C8: `Errorf` with a nil reason is legal and returns the node
`Error{Message, Reason: nil, Context: nil}` — an actual node, never an
absent error value (the embedding returns an `Error` unconditionally, as
the Go function body has the single statement `return Error{...}`) — and
rendering that node yields exactly the formatted message. -/
theorem C8_errorf_nil (cfg : Config) (m : String) :
    Errorf .rnil m = ⟨m, .rnil, none⟩ ∧ errorString cfg (Errorf .rnil m) = m :=
  ⟨rfl, es_rnil cfg m⟩

/-- C9: `Fatalf` renders `Errorf(reason, message)` and produces, in order,
exactly one write of the rendered text followed by a trailing newline to
the standard error stream and one call of the injectable exiter with
status code 1; at the concrete input of the repository's `Fatalf` test the
written text is `"critical error\n└─ wow\n"`. -/
theorem C9_fatalf (cfg : Config) (r : RVal) (m : String) :
    Fatalf cfg r m =
      [.writeStderr (errorString cfg (Errorf r m) ++ "\n"), .exitProcess 1] ∧
    Fatalf boxConfig (.rone (.str "wow")) "critical error" =
      [.writeStderr "critical error\n└─ wow\n", .exitProcess 1] := by
  refine ⟨rfl, ?_⟩
  have h : errorString boxConfig (Errorf (.rone (.str "wow")) "critical error") =
      "critical error\n└─ wow" := by
    simp only [Errorf, es_rone, so_str]
    decide
  simp only [Fatalf, h]
  decide

/-- C10: for every `Error` parent carrying a non-nil context chain,
`Push(parent, children...)` returns an `Error` whose context field is nil;
the result is identical to pushing the same parent without its context, so
the parent's context pairs do not appear in the result's rendering. -/
theorem C10_push_drops_context (cfg : Config) (m : String) (v : RVal)
    (ec : ErrorContext) (cs : List Reason) :
    (Push cfg (.err ⟨m, v, some ec⟩) cs).context = none ∧
    Push cfg (.err ⟨m, v, some ec⟩) cs = Push cfg (.err ⟨m, v, none⟩) cs ∧
    errorString cfg (Push cfg (.err ⟨m, v, some ec⟩) cs) =
      errorString cfg (Push cfg (.err ⟨m, v, none⟩) cs) :=
  ⟨rfl, rfl, rfl⟩

end Hierr
